import Mathlib

/-!
Verification development for the Snapnepal "RetroSnap" photo-sharing client.

The repository keeps several revisions of the same modules side by side
(`src/services/supabase.ts` contains three revisions separated by document
markers, `src/services/firebase.ts` contains a Firebase revision followed by
another Supabase revision).  The definitions below are shallow embeddings of
the concrete functions of those revisions:

* `Snap.PhotoData`       — the `PhotoData` interface of `src/types.ts`;
* `Snap.mapSet`/`Snap.buildMap`/`Snap.jsMapDedupe`
                         — `new Map(list.map(item => [item.id, item])).values()`;
* `Snap.sortDesc`        — `arr.sort((a, b) => b.timestamp - a.timestamp)`
                           (JavaScript sort is stable, ES2019);
* `Snap.mergedList`      — the body of `update` in `useRealtimePhotos`
                           (supabase.ts revision 1, lines 326-335);
* `Snap.updateStep`      — `update` including its publish guard;
* `Snap.fbUpdateStep`    — `update` of the revision embedded in firebase.ts
                           (lines 291-300), which publishes unconditionally;
* `Snap.mergePhotos`     — `mergePhotos` of supabase.ts revision 3
                           (lines 795-805);
* `Snap.saveLocalBackup` — the cap-50 Local Mirror upsert with its
                           quota-failure recovery (supabase.ts lines 102-125);
* `Snap.getLocalPhotos`  — the Local Mirror reader (lines 93-100);
* `Snap.deleteLocalPhoto`, `Snap.handleRemoteDelete`
                         — the realtime DELETE handler (lines 381-385);
* `Snap.uploadAndSavePhotoA` / `Snap.uploadAndSavePhotoB`
                         — the DB-insert stage of `uploadAndSavePhoto` in
                           revisions 1 (lines 194-229) and 2 (lines 584-625);
* `Snap.handleTakePhotoTrace`
                         — the event order of `handleTakePhoto`
                           (App.tsx lines 44-93);
* `Snap.loadAndCleanFilter`, `Snap.loadAndCleanGallery`
                         — the 24h retention filter of `loadAndCleanGallery`
                           (src/unnamed/part_006 lines 25-50).

JavaScript numbers that the synchronization logic only carries around
(`rotation`, `x`, `y`) or compares (`timestamp`, millisecond integers) are
modelled as `Int`; optional interface fields (`x?`, `y?`, `authorName?`,
`bio?`, `socialHandle?`) as `Option`.
-/

namespace Snap

/-- The `PhotoData` interface of `src/types.ts` (primary revision):
`id`, `imageUrl`, `caption`, optional `authorName`/`bio`/`socialHandle`,
`date`, `rotation`, `zIndex`, optional `x`/`y`, and `timestamp` (ms). -/
structure PhotoData where
  id : String
  imageUrl : String
  caption : String
  authorName : Option String := none
  bio : Option String := none
  socialHandle : Option String := none
  date : String
  rotation : Int
  zIndex : Int
  x : Option Int := none
  y : Option Int := none
  timestamp : Int
deriving DecidableEq, Repr

/-- The list of `id` fields of a photo list. -/
def ids (l : List PhotoData) : List String := l.map (·.id)

/-- First record with the given id (`arr.find(p => p.id === k)`). -/
def findId (l : List PhotoData) (k : String) : Option PhotoData :=
  l.find? (fun p => p.id = k)

/-- Last record with the given id, if any. -/
def lastWithId (l : List PhotoData) (k : String) : Option PhotoData :=
  (l.filter (fun p => p.id = k)).getLast?

/-- `Map.prototype.set` on an association list: if the key is present its
value is replaced in place (iteration position kept), otherwise the new
entry is appended. -/
def mapSet (m : List (String × PhotoData)) (k : String) (v : PhotoData) :
    List (String × PhotoData) :=
  if m.any (fun e => e.1 = k) then
    m.map (fun e => if e.1 = k then (k, v) else e)
  else
    m ++ [(k, v)]

/-- `new Map(l.map(item => [item.id, item]))`: iterate the entry list and
`set` each pair into an initially empty map. -/
def buildMap (l : List PhotoData) : List (String × PhotoData) :=
  l.foldl (fun acc p => mapSet acc p.id p) []

/-- `Array.from(new Map(l.map(item => [item.id, item])).values())`:
one record per id, keyed in first-occurrence order, carrying the
last-occurrence value. -/
def jsMapDedupe (l : List PhotoData) : List PhotoData :=
  (buildMap l).map Prod.snd

/-- The value the map ends with for the key `p.id` when the entries of `ps`
are set after `p`: the last record of `ps` with that id, or `p` itself. -/
def lastD (p : PhotoData) (ps : List PhotoData) : PhotoData :=
  ((ps.filter (fun q => q.id = p.id)).getLast?).getD p

/-- Recursive characterisation of the JS `Map` dedupe used in proofs:
`seen` is the set of keys the map already holds (those entries are skipped);
a fresh key contributes the last value with that id. -/
def dedupeSeen (seen : List String) : List PhotoData → List PhotoData
  | [] => []
  | p :: ps =>
      if p.id ∈ seen then dedupeSeen seen ps
      else lastD p ps :: dedupeSeen (p.id :: seen) ps

/-- Comparator order of `(a, b) => b.timestamp - a.timestamp`: `a` may come
before `b` exactly when `b.timestamp ≤ a.timestamp`. -/
def tsGE (a b : PhotoData) : Prop := b.timestamp ≤ a.timestamp

instance : DecidableRel tsGE := fun a b => inferInstanceAs (Decidable (_ ≤ _))

instance : IsTotal PhotoData tsGE := ⟨fun a b => le_total b.timestamp a.timestamp⟩

instance : IsTrans PhotoData tsGE := ⟨fun _ _ _ h h' => le_trans h' h⟩

/-- `arr.sort((a, b) => b.timestamp - a.timestamp)`: stable sort by
timestamp descending.  Insertion sort is stable, which matches the
ECMAScript requirement that `Array.prototype.sort` be stable. -/
def sortDesc (l : List PhotoData) : List PhotoData :=
  List.insertionSort tsGE l

/-- Body of `update` in `useRealtimePhotos` (supabase.ts revision 1,
lines 326-330, and identically firebase.ts lines 291-297): combine
`[...newPhotos, ...currentPhotos]`, keep one record per id through a JS
`Map`, and sort by timestamp descending. -/
def mergedList (currentPhotos newPhotos : List PhotoData) : List PhotoData :=
  sortDesc (jsMapDedupe (newPhotos ++ currentPhotos))

/-- `update` of supabase.ts revision 1 (lines 326-335) including its publish
guard `unique.length !== currentPhotos.length || JSON.stringify(unique) !==
JSON.stringify(currentPhotos)`: returns the new `currentPhotos` and whether
`onPhotosUpdated` was called.  `JSON.stringify` equality on these records is
structural equality. -/
def updateStep (currentPhotos newPhotos : List PhotoData) :
    List PhotoData × Bool :=
  let unique := mergedList currentPhotos newPhotos
  if unique.length ≠ currentPhotos.length ∨ unique ≠ currentPhotos then
    (unique, true)
  else
    (currentPhotos, false)

/-- `update` of the revision embedded in firebase.ts (lines 291-300): same
merge, but `onPhotosUpdated` is called unconditionally on every invocation. -/
def fbUpdateStep (currentPhotos newPhotos : List PhotoData) :
    List PhotoData × Bool :=
  (mergedList currentPhotos newPhotos, true)

/-- `mergePhotos` of supabase.ts revision 3 (lines 795-805): set all local
photos into the map first, then all cloud photos (cloud overwrites), and
return the values sorted by timestamp descending. -/
def mergePhotos (cloudPhotos localPhotos : List PhotoData) : List PhotoData :=
  sortDesc (jsMapDedupe (localPhotos ++ cloudPhotos))

/-- `getLocalPhotos` (supabase.ts lines 93-100).  `stored` is what
`localStorage.getItem` returned (`none` models the absent key; JavaScript
also treats the empty string as falsy), and `parse` models `JSON.parse`
together with the implicit array-shape cast: `.error` means the parse threw,
which the `catch` turns into `[]`.  The function is total: it never raises. -/
def getLocalPhotos (stored : Option String)
    (parse : String → Except Unit (List PhotoData)) : List PhotoData :=
  match stored with
  | none => []
  | some s =>
      if s = "" then []
      else
        match parse s with
        | .ok l => l
        | .error _ => []

/-- Body of `saveLocalBackup` (supabase.ts lines 102-113) up to the point
where an exception can be thrown.  `canStore` is the storage oracle: it says
whether `JSON.stringify` plus `localStorage.setItem` succeeds on the given
list (`false` models a QuotaExceededError or a serialization throw, in which
case the store is unchanged).  A duplicate id is a no-op. -/
def saveBody (canStore : List PhotoData → Bool) (store : List PhotoData)
    (photo : PhotoData) : Except Unit (List PhotoData) :=
  if store.any (fun p => p.id = photo.id) then .ok store
  else
    let updated := (photo :: store).take 50
    if canStore updated then .ok updated else .error ()

/-- The `catch` branch of `saveLocalBackup` (lines 114-124): re-read the
(unchanged) store and, when it holds more than 10 records, try to persist
its first 10; a second failure is swallowed by the inner `catch (e2)`. -/
def saveRecover (canStore : List PhotoData → Bool) (store : List PhotoData) :
    List PhotoData :=
  if store.length > 10 then
    (if canStore (store.take 10) then store.take 10 else store)
  else store

/-- `saveLocalBackup` (supabase.ts revision 1, lines 102-125): the Local
Mirror upsert with the 50-record cap and quota-failure recovery.  The
result is always `.ok`: the `try/catch` never lets an exception escape. -/
def saveLocalBackup (canStore : List PhotoData → Bool) (store : List PhotoData)
    (photo : PhotoData) : Except Unit (List PhotoData) :=
  match saveBody canStore store photo with
  | .ok s => .ok s
  | .error _ => .ok (saveRecover canStore store)

/-- `saveLocalBackup` when storage always succeeds (the pure upsert):
no-op on a present id, otherwise prepend and truncate to 50. -/
def upsert (store : List PhotoData) (photo : PhotoData) : List PhotoData :=
  if store.any (fun p => p.id = photo.id) then store
  else (photo :: store).take 50

/-- A sequence of `saveLocalBackup` calls (storage succeeding), oldest
call first. -/
def applyUpserts (store : List PhotoData) (photos : List PhotoData) :
    List PhotoData :=
  photos.foldl upsert store

/-- Follows the spec's words for the capacity-bound property: the
"most-recent `cap` records by timestamp" of a batch, i.e. the batch sorted
by timestamp descending and truncated to `cap`.  This is the comparison
definition for claim C4, not code of the repository. -/
def specTopByTimestamp (records : List PhotoData) (cap : Nat) : List PhotoData :=
  (sortDesc records).take cap

/-- `deleteLocalPhoto` (supabase.ts lines 127-132): remove every record with
the given id from the Local Mirror and persist the result. -/
def deleteLocalPhoto (store : List PhotoData) (deletedId : String) :
    List PhotoData :=
  store.filter (fun p => p.id ≠ deletedId)

/-- The DELETE branch of the realtime subscription handler (supabase.ts
lines 381-385): filter the published in-memory list, publish it, and delete
the record from the persisted Local Mirror.  Returns (published list, Local
Mirror) after the event. -/
def handleRemoteDelete (currentPhotos store : List PhotoData)
    (deletedId : String) : List PhotoData × List PhotoData :=
  (currentPhotos.filter (fun p => p.id ≠ deletedId),
   deleteLocalPhoto store deletedId)

/-- A supabase/PostgREST error object: `code` and `message`. -/
structure DBErr where
  code : String
  message : String
deriving DecidableEq, Repr

/-- Result of one awaited remote call: the `await` itself threw, or it
returned a response carrying an optional error object. -/
inductive CallRes (α : Type) where
  | threw : CallRes α
  | ret : α → CallRes α
deriving DecidableEq, Repr

/-- Contiguous sublist occurrence on character lists. -/
def listHasSub (sub : List Char) : List Char → Bool
  | [] => sub.isEmpty
  | c :: t => if sub.isPrefixOf (c :: t) then true else listHasSub sub t

/-- `s.includes(sub)` of JavaScript: contiguous substring occurrence. -/
def strIncludes (s sub : String) : Bool := listHasSub sub.data s.data

/-- The schema-mismatch test of `uploadAndSavePhoto` (supabase.ts lines 214
and 602): `dbError.code === '42703' ||
dbError.message.includes('Could not find the')`. -/
def isColumnNotFound (e : DBErr) : Bool :=
  e.code = "42703" || strIncludes e.message "Could not find the"

/-- One column of an insert row, with its value. -/
inductive InsertField where
  | fId (v : String)
  | fImageUrl (v : String)
  | fCaption (v : String)
  | fDate (v : String)
  | fRotation (v : Int)
  | fZIndex (v : Int)
  | fX (v : Int)
  | fY (v : Int)
  | fAuthorName (v : Option String)
  | fBio (v : Option String)
  | fSocialHandle (v : Option String)
deriving DecidableEq, Repr

/-- The column name an `InsertField` writes. -/
def fieldName : InsertField → String
  | .fId _ => "id"
  | .fImageUrl _ => "image_url"
  | .fCaption _ => "caption"
  | .fDate _ => "date"
  | .fRotation _ => "rotation"
  | .fZIndex _ => "z_index"
  | .fX _ => "x"
  | .fY _ => "y"
  | .fAuthorName _ => "author_name"
  | .fBio _ => "bio"
  | .fSocialHandle _ => "social_handle"

/-- `photoMetadata`: `Omit<PhotoData, 'imageUrl' | 'timestamp'>`. -/
structure PhotoMeta where
  id : String
  caption : String
  date : String
  rotation : Int
  zIndex : Int
  x : Option Int := none
  y : Option Int := none
  authorName : Option String := none
  bio : Option String := none
  socialHandle : Option String := none
deriving DecidableEq, Repr

/-- The full insert row of revision 1 (supabase.ts lines 195-211):
`x: photoMetadata.x || 0` maps an absent (or zero) `x` to 0. -/
def fullRowA (m : PhotoMeta) (url : String) : List InsertField :=
  [.fId m.id, .fImageUrl url, .fCaption m.caption, .fDate m.date,
   .fRotation m.rotation, .fZIndex m.zIndex, .fX (m.x.getD 0),
   .fY (m.y.getD 0), .fAuthorName m.authorName, .fBio m.bio,
   .fSocialHandle m.socialHandle]

/-- The minimal retry row of revision 1 (lines 217-221): id, image_url,
caption. -/
def retryRowA (m : PhotoMeta) (url : String) : List InsertField :=
  [.fId m.id, .fImageUrl url, .fCaption m.caption]

/-- The full insert row of revision 2 (supabase.ts lines 585-598). -/
def fullRowB (m : PhotoMeta) (url : String) : List InsertField :=
  [.fId m.id, .fImageUrl url, .fCaption m.caption, .fDate m.date,
   .fRotation m.rotation, .fZIndex m.zIndex, .fX (m.x.getD 0),
   .fY (m.y.getD 0)]

/-- The compatibility retry row of revision 2 (lines 607-610): id and
image_url only — no caption. -/
def retryRowB (m : PhotoMeta) (url : String) : List InsertField :=
  [.fId m.id, .fImageUrl url]

/-- Environment of one `uploadAndSavePhoto` run: outcome of the storage
upload stage, the public URL the bucket would give, and the outcomes of the
two possible row inserts. -/
structure InsertEnv where
  storageUploadThrew : Bool
  publicUrl : String
  firstInsert : CallRes (Option DBErr)
  retryInsert : CallRes (Option DBErr)

/-- `finalImageUrl` after the storage stage (revision 1, lines 162-183 and
revision 2, lines 549-572): the bucket's public URL on success, otherwise
the base64 data-URL fallback. -/
def finalImageUrl (base64Image : String) (env : InsertEnv) : String :=
  if env.storageUploadThrew then
    (if base64Image.startsWith "data:" then base64Image
     else "data:image/jpeg;base64," ++ base64Image)
  else env.publicUrl

/-- The DB-insert stage of revision 1 (lines 194-229): the list of row
inserts attempted in order, and whether an exception escaped into the outer
catch.  On a `COLUMN_NOT_FOUND` error the minimal row is retried; the retry
result is not inspected. -/
def insertStageA (m : PhotoMeta) (url : String) (env : InsertEnv) :
    List (List InsertField) × Bool :=
  match env.firstInsert with
  | .threw => ([fullRowA m url], true)
  | .ret none => ([fullRowA m url], false)
  | .ret (some e) =>
      if isColumnNotFound e then
        match env.retryInsert with
        | .threw => ([fullRowA m url, retryRowA m url], true)
        | .ret _ => ([fullRowA m url, retryRowA m url], false)
      else ([fullRowA m url], false)

/-- The DB-insert stage of revision 2 (lines 584-623); identical control
flow with the revision-2 rows (the retry error is logged only). -/
def insertStageB (m : PhotoMeta) (url : String) (env : InsertEnv) :
    List (List InsertField) × Bool :=
  match env.firstInsert with
  | .threw => ([fullRowB m url], true)
  | .ret none => ([fullRowB m url], false)
  | .ret (some e) =>
      if isColumnNotFound e then
        match env.retryInsert with
        | .threw => ([fullRowB m url, retryRowB m url], true)
        | .ret _ => ([fullRowB m url, retryRowB m url], false)
      else ([fullRowB m url], false)

/-- `uploadAndSavePhoto` of revision 1: the attempted DB inserts and the
value returned to the caller.  The outer `try/catch` (lines 161, 230-233)
turns any thrown exception into a normal return of `base64Image`, so the
call never raises. -/
def uploadAndSavePhotoA (m : PhotoMeta) (base64Image : String)
    (env : InsertEnv) : List (List InsertField) × String :=
  let url := finalImageUrl base64Image env
  let st := insertStageA m url env
  (st.1, if st.2 then base64Image else url)

/-- `uploadAndSavePhoto` of revision 2 (same structure, revision-2 rows). -/
def uploadAndSavePhotoB (m : PhotoMeta) (base64Image : String)
    (env : InsertEnv) : List (List InsertField) × String :=
  let url := finalImageUrl base64Image env
  let st := insertStageB m url env
  (st.1, if st.2 then base64Image else url)

/-- Observable events of `handleTakePhoto` relevant to optimistic
visibility: the awaited caption call, a `setGalleryPhotos` publish, and the
awaited `uploadAndSavePhoto` (which performs the blob upload and the row
insert). -/
inductive CaptureEvent where
  | awaitCaption
  | publishGallery (photos : List PhotoData)
  | awaitUploadAndSave
deriving DecidableEq, Repr

/-- Is the event a network await (caption generation, or blob upload plus
row insert)? -/
def CaptureEvent.isAwaitNet : CaptureEvent → Bool
  | .awaitCaption => true
  | .awaitUploadAndSave => true
  | .publishGallery _ => false

/-- Is the event a gallery publish? -/
def CaptureEvent.isPublishEvt : CaptureEvent → Bool
  | .publishGallery _ => true
  | _ => false

/-- The optimistic record of `handleTakePhoto` (App.tsx lines 66-71):
`{...newPhotoMeta, imageUrl: imageData, timestamp: Date.now(), zIndex: 10}`.
`newPhotoMeta` is built from the resolved caption data, so its `caption` and
`date` fields come from the awaited AI call. -/
def optimisticPhoto (m : PhotoMeta) (imageData : String) (now : Int) :
    PhotoData :=
  { id := m.id, imageUrl := imageData, caption := m.caption,
    authorName := m.authorName, bio := m.bio,
    socialHandle := m.socialHandle, date := m.date, rotation := m.rotation,
    zIndex := 10, x := m.x, y := m.y, timestamp := now }

/-- Event order of `handleTakePhoto` (App.tsx lines 44-93) on the success
path: it first awaits `generatePhotoCaption(imageData)` (line 51), then
publishes the optimistic record at the head of the gallery (line 72), then
awaits `uploadAndSavePhoto` (line 81). -/
def handleTakePhotoTrace (prev : List PhotoData) (m : PhotoMeta)
    (imageData : String) (now : Int) : List CaptureEvent :=
  [ .awaitCaption,
    .publishGallery (optimisticPhoto m imageData now :: prev),
    .awaitUploadAndSave ]

/-- `PhotoData` of the retention-window revision (src/unnamed/part_005,
third variant): `timestamp?: number` is optional there. -/
structure GalleryPhoto where
  id : String
  imageUrl : String
  caption : String
  date : String
  rotation : Int
  zIndex : Int
  x : Option Int := none
  y : Option Int := none
  timestamp : Option Int := none
deriving DecidableEq, Repr

/-- `!p.timestamp`: JavaScript falsiness of the timestamp field (absent or
zero). -/
def GalleryPhoto.tsFalsy (p : GalleryPhoto) : Bool :=
  match p.timestamp with
  | none => true
  | some t => t = 0

/-- The retention filter of `loadAndCleanGallery` (src/unnamed/part_006
lines 32-38): `if (!p.timestamp) return true;
return (now - p.timestamp) < twentyFourHoursMs;`. -/
def loadAndCleanFilter (now : Int) (parsed : List GalleryPhoto) :
    List GalleryPhoto :=
  parsed.filter (fun p =>
    match p.timestamp with
    | none => true
    | some t => t = 0 || (now - t < 86400000))

/-- `loadAndCleanGallery` (part_006 lines 25-50) after a successful parse:
the new gallery state, and whether the cleaned list was written back
(`validPhotos.length !== parsed.length`). -/
def loadAndCleanGallery (now : Int) (parsed : List GalleryPhoto) :
    List GalleryPhoto × Bool :=
  let valid := loadAndCleanFilter now parsed
  (valid, valid.length ≠ parsed.length)

/-- Follows the spec's words for claim C8: a record is expired when its
timestamp is older than 24 hours from the current time.  Comparison
definition, not code of the repository. -/
def specExpired (now : Int) (p : GalleryPhoto) : Bool :=
  match p.timestamp with
  | none => false
  | some t => now - t > 86400000

/-- Concrete sample record, used by witnesses and counterexamples. -/
def mkP (i : Nat) (t : Int) : PhotoData :=
  { id := toString i, imageUrl := "url", caption := "cap", date := "d",
    rotation := 0, zIndex := 1, timestamp := t }

/-- Concrete sample record with an explicit caption. -/
def mkPc (i : Nat) (t : Int) (c : String) : PhotoData :=
  { id := toString i, imageUrl := "url", caption := c, date := "d",
    rotation := 0, zIndex := 1, timestamp := t }

/-- 51 records with distinct ids; the first upserted record carries the
greatest timestamp. -/
def photos51 : List PhotoData :=
  (List.range 51).map (fun i => mkP i (if i = 0 then 1000000 else (i : Int)))

/-- Concrete capture metadata. -/
def demoMeta : PhotoMeta :=
  { id := "m1", caption := "cap", date := "d", rotation := 0, zIndex := 1 }

/-- Concrete parse function standing in for `JSON.parse`: succeeds on the
string "p", throws on anything else. -/
def demoParse : String → Except Unit (List PhotoData) :=
  fun s => if s = "p" then .ok [mkP 1 1] else .error ()

/-- Concrete storage oracle: persisting succeeds only for lists of at most
10 records (a nearly full quota). -/
def cexCanStore : List PhotoData → Bool := fun l => l.length ≤ 10

/-- A Local Mirror holding 12 records. -/
def store12 : List PhotoData := (List.range 12).map (fun i => mkP i (i : Int))

/-- Concrete environment: storage upload succeeds and the full-metadata row
insert fails with the COLUMN_NOT_FOUND code 42703; the retry succeeds. -/
def cexEnv : InsertEnv :=
  { storageUploadThrew := false, publicUrl := "http://x",
    firstInsert := .ret (some { code := "42703", message := "boom" }),
    retryInsert := .ret none }

/-- Concrete gallery record with a chosen id and optional timestamp. -/
def gPhoto (s : String) (t : Option Int) : GalleryPhoto :=
  { id := s, imageUrl := "u", caption := "c", date := "d", rotation := 0,
    zIndex := 1, timestamp := t }

end Snap

namespace Snap

theorem mem_of_getLast?_eq_some {α : Type _} {l : List α} {a : α}
    (h : l.getLast? = some a) : a ∈ l := by
  induction l with
  | nil => simp at h
  | cons b t ih =>
    rw [List.getLast?_cons] at h
    cases ht : t.getLast? with
    | none => simp [ht] at h; simp [h]
    | some c =>
      simp [ht] at h
      subst h
      exact List.mem_cons_of_mem _ (ih ht)

theorem lastD_id (p : PhotoData) (ps : List PhotoData) : (lastD p ps).id = p.id := by
  unfold lastD
  cases h : (ps.filter (fun q => q.id = p.id)).getLast? with
  | none => rfl
  | some q =>
    have hq := mem_of_getLast?_eq_some h
    have := (List.mem_filter.mp hq).2
    simpa using this

theorem lastWithId_cons_self (p : PhotoData) (ps : List PhotoData) :
    lastWithId (p :: ps) p.id = some (lastD p ps) := by
  unfold lastWithId lastD
  rw [List.filter_cons_of_pos (by simp)]
  rw [List.getLast?_cons]

theorem lastWithId_cons_ne (p : PhotoData) (ps : List PhotoData) {k : String}
    (h : p.id ≠ k) : lastWithId (p :: ps) k = lastWithId ps k := by
  unfold lastWithId
  rw [List.filter_cons_of_neg (by simp [h])]

theorem lastWithId_append (a b : List PhotoData) (k : String) :
    lastWithId (a ++ b) k = (lastWithId b k).or (lastWithId a k) := by
  unfold lastWithId
  rw [List.filter_append, List.getLast?_append]

theorem dedupeSeen_congr {s₁ s₂ : List String} (h : ∀ x, x ∈ s₁ ↔ x ∈ s₂) :
    ∀ l : List PhotoData, dedupeSeen s₁ l = dedupeSeen s₂ l := by
  intro l
  induction l generalizing s₁ s₂ with
  | nil => rfl
  | cons p ps ih =>
    unfold dedupeSeen
    by_cases hp : p.id ∈ s₁
    · rw [if_pos hp, if_pos ((h p.id).mp hp)]
      exact ih h
    · rw [if_neg hp, if_neg (fun hc => hp ((h p.id).mpr hc))]
      refine congrArg _ (ih ?_)
      intro x
      simp only [List.mem_cons]
      exact or_congr Iff.rfl (h x)

theorem mapSet_any_iff (m : List (String × PhotoData)) (k : String) :
    (m.any (fun e => e.1 = k)) = true ↔ k ∈ m.map Prod.fst := by
  rw [List.any_eq_true]
  constructor
  · rintro ⟨e, he, hek⟩
    exact List.mem_map.mpr ⟨e, he, by simpa using hek⟩
  · intro hk
    obtain ⟨e, he, hek⟩ := List.mem_map.mp hk
    exact ⟨e, he, by simpa using hek⟩

end Snap

namespace Snap

theorem foldl_mapSet_general (l : List PhotoData) :
    ∀ m : List (String × PhotoData),
      (l.foldl (fun acc p => mapSet acc p.id p) m).map Prod.snd =
        m.map (fun e => (lastWithId l e.1).getD e.2) ++
          dedupeSeen (m.map Prod.fst) l := by
  induction l with
  | nil =>
    intro m
    simp [dedupeSeen, lastWithId]
  | cons p ps ih =>
    intro m
    rw [List.foldl_cons]
    by_cases hmem : p.id ∈ m.map Prod.fst
    · have hany : (m.any (fun e => e.1 = p.id)) = true :=
        (mapSet_any_iff m p.id).mpr hmem
      have hset : mapSet m p.id p =
          m.map (fun e => if e.1 = p.id then (p.id, p) else e) := by
        rw [mapSet, if_pos hany]
      rw [hset, ih]
      have hkeys : ((m.map (fun e => if e.1 = p.id then (p.id, p) else e)).map
          Prod.fst) = m.map Prod.fst := by
        rw [List.map_map]
        apply List.map_congr_left
        intro e _
        by_cases hek : e.1 = p.id
        · simp [Function.comp, hek]
        · simp [Function.comp, hek]
      rw [hkeys]
      have hskip : dedupeSeen (m.map Prod.fst) (p :: ps) =
          dedupeSeen (m.map Prod.fst) ps := by
        simp only [dedupeSeen, if_pos hmem]
      rw [hskip]
      congr 1
      rw [List.map_map]
      apply List.map_congr_left
      intro e _
      by_cases hek : e.1 = p.id
      · simp only [Function.comp, if_pos hek]
        rw [hek, lastWithId_cons_self]
        rfl
      · simp only [Function.comp, if_neg hek]
        rw [lastWithId_cons_ne p ps (fun hc => hek hc.symm)]
    · have hany : ¬ (m.any (fun e => e.1 = p.id)) = true :=
        fun hc => hmem ((mapSet_any_iff m p.id).mp hc)
      have hset : mapSet m p.id p = m ++ [(p.id, p)] := by
        rw [mapSet, if_neg hany]
      rw [hset, ih]
      have hfresh : dedupeSeen (m.map Prod.fst) (p :: ps) =
          lastD p ps :: dedupeSeen (p.id :: m.map Prod.fst) ps := by
        simp only [dedupeSeen, if_neg hmem]
      rw [hfresh]
      rw [List.map_append, List.map_append]
      have hmval : m.map (fun e => (lastWithId ps e.1).getD e.2) =
          m.map (fun e => (lastWithId (p :: ps) e.1).getD e.2) := by
        apply List.map_congr_left
        intro e he
        have hek : p.id ≠ e.1 := by
          intro hc
          exact hmem (List.mem_map.mpr ⟨e, he, hc.symm⟩)
        rw [lastWithId_cons_ne p ps hek]
      have hsingle : ([(p.id, p)].map (fun e => (lastWithId ps e.1).getD e.2)) =
          [lastD p ps] := by
        simp only [List.map_cons, List.map_nil]
        rfl
      have hseen : dedupeSeen (m.map Prod.fst ++ [p.id]) ps =
          dedupeSeen (p.id :: m.map Prod.fst) ps := by
        apply dedupeSeen_congr
        intro x
        simp [or_comm]
      rw [hmval, hsingle]
      simp only [List.map_cons, List.map_nil]
      rw [hseen, List.append_assoc]
      rfl

theorem jsMapDedupe_eq (l : List PhotoData) : jsMapDedupe l = dedupeSeen [] l := by
  have := foldl_mapSet_general l []
  simpa [jsMapDedupe, buildMap] using this

end Snap

namespace Snap

theorem id_not_seen_of_mem_dedupeSeen {seen : List String} {l : List PhotoData}
    {p : PhotoData} (h : p ∈ dedupeSeen seen l) : p.id ∉ seen := by
  induction l generalizing seen with
  | nil => simp [dedupeSeen] at h
  | cons q qs ih =>
    by_cases hq : q.id ∈ seen
    · rw [dedupeSeen, if_pos hq] at h
      exact ih h
    · rw [dedupeSeen, if_neg hq] at h
      rcases List.mem_cons.mp h with h1 | h2
      · rw [h1, lastD_id]; exact hq
      · have := ih h2
        intro hc
        exact this (List.mem_cons_of_mem _ hc)

theorem ids_dedupeSeen_nodup (seen : List String) (l : List PhotoData) :
    (ids (dedupeSeen seen l)).Nodup := by
  induction l generalizing seen with
  | nil => simp [dedupeSeen, ids]
  | cons q qs ih =>
    by_cases hq : q.id ∈ seen
    · rw [dedupeSeen, if_pos hq]; exact ih seen
    · rw [dedupeSeen, if_neg hq]
      rw [ids, List.map_cons]
      refine List.nodup_cons.mpr ⟨?_, ih (q.id :: seen)⟩
      intro hc
      obtain ⟨r, hr, hrid⟩ := List.mem_map.mp hc
      have := id_not_seen_of_mem_dedupeSeen hr
      rw [lastD_id] at hrid
      exact this (by rw [hrid]; exact List.mem_cons_self _ _)

theorem mem_ids_dedupeSeen {seen : List String} {l : List PhotoData} {k : String} :
    k ∈ ids (dedupeSeen seen l) ↔ k ∈ ids l ∧ k ∉ seen := by
  induction l generalizing seen with
  | nil => simp [dedupeSeen, ids]
  | cons q qs ih =>
    by_cases hq : q.id ∈ seen
    · rw [dedupeSeen, if_pos hq]
      have hih := @ih seen
      simp only [ids] at hih ⊢
      rw [hih]
      simp only [List.map_cons, List.mem_cons]
      constructor
      · rintro ⟨h1, h2⟩
        exact ⟨Or.inr h1, h2⟩
      · rintro ⟨h1 | h1, h2⟩
        · exact absurd (h1 ▸ hq) h2
        · exact ⟨h1, h2⟩
    · rw [dedupeSeen, if_neg hq]
      have hih := @ih (q.id :: seen)
      simp only [ids] at hih ⊢
      simp only [List.map_cons, List.mem_cons, lastD_id, hih, List.mem_cons]
      constructor
      · rintro (h | ⟨h1, h2⟩)
        · exact ⟨Or.inl h, h ▸ hq⟩
        · exact ⟨Or.inr h1, fun hc => h2 (Or.inr hc)⟩
      · rintro ⟨h1 | h1, h2⟩
        · exact Or.inl h1
        · by_cases hk : k = q.id
          · exact Or.inl hk
          · refine Or.inr ⟨h1, fun hc => ?_⟩
            rcases hc with hc | hc
            · exact hk hc
            · exact h2 hc

theorem findId_dedupeSeen {seen : List String} {l : List PhotoData} {k : String}
    (hk : k ∉ seen) : findId (dedupeSeen seen l) k = lastWithId l k := by
  induction l generalizing seen with
  | nil => simp [dedupeSeen, findId, lastWithId]
  | cons q qs ih =>
    by_cases hq : q.id ∈ seen
    · rw [dedupeSeen, if_pos hq, ih hk]
      have hne : q.id ≠ k := fun hc => hk (hc ▸ hq)
      rw [lastWithId_cons_ne q qs hne]
    · rw [dedupeSeen, if_neg hq]
      by_cases hqk : q.id = k
      · subst hqk
        rw [lastWithId_cons_self]
        unfold findId
        rw [List.find?_cons]
        have : (decide ((lastD q qs).id = q.id)) = true := by
          simp [lastD_id]
        rw [this]
      · have hkseen : k ∉ q.id :: seen := by
          intro hc
          rcases List.mem_cons.mp hc with hc | hc
          · exact hqk hc.symm
          · exact hk hc
        unfold findId
        rw [List.find?_cons]
        have : (decide ((lastD q qs).id = k)) = false := by
          simp [lastD_id, hqk]
        rw [this]
        have := ih hkseen
        rw [findId] at this
        rw [this, lastWithId_cons_ne q qs hqk]

end Snap

namespace Snap

theorem dedupeSeen_of_nodup {l : List PhotoData} (h : (ids l).Nodup) :
    ∀ seen : List String, dedupeSeen seen l = l.filter (fun p => p.id ∉ seen) := by
  induction l with
  | nil => intro seen; simp [dedupeSeen]
  | cons q qs ih =>
    intro seen
    rw [ids, List.map_cons, List.nodup_cons] at h
    obtain ⟨hq, hqs⟩ := h
    by_cases hmem : q.id ∈ seen
    · rw [dedupeSeen, if_pos hmem, List.filter_cons_of_neg (by simp [hmem])]
      exact ih hqs seen
    · rw [dedupeSeen, if_neg hmem, List.filter_cons_of_pos (by simp [hmem])]
      have hlast : lastD q qs = q := by
        unfold lastD
        have : qs.filter (fun r => r.id = q.id) = [] := by
          rw [List.filter_eq_nil_iff]
          intro r hr
          simp only [decide_eq_true_eq]
          intro hc
          exact hq (List.mem_map.mpr ⟨r, hr, hc⟩)
        rw [this]
        rfl
      rw [hlast, ih hqs (q.id :: seen)]
      congr 1
      apply List.filter_congr
      intro r hr
      have hne : r.id ≠ q.id := fun hc => hq (List.mem_map.mpr ⟨r, hr, hc⟩)
      simp [List.mem_cons, hne]

theorem dedupeSeen_nil_of_nodup {l : List PhotoData} (h : (ids l).Nodup) :
    dedupeSeen [] l = l := by
  rw [dedupeSeen_of_nodup h []]
  apply List.filter_eq_self.mpr
  intro a _
  simp

theorem findId_eq_some_iff {l : List PhotoData} (h : (ids l).Nodup)
    {k : String} {p : PhotoData} :
    findId l k = some p ↔ p ∈ l ∧ p.id = k := by
  constructor
  · intro hf
    refine ⟨List.mem_of_find?_eq_some hf, ?_⟩
    have := List.find?_some hf
    simpa using this
  · rintro ⟨hmem, hid⟩
    cases hf : findId l k with
    | none =>
      rw [findId, List.find?_eq_none] at hf
      exact absurd (by simpa using hid) (hf p hmem)
    | some q =>
      have hqmem := List.mem_of_find?_eq_some hf
      have hqid : q.id = k := by simpa using List.find?_some hf
      have : q = p := List.inj_on_of_nodup_map h hqmem hmem (by rw [hqid, hid])
      rw [this]

theorem findId_perm {l l' : List PhotoData} (hp : l.Perm l')
    (h : (ids l).Nodup) (k : String) : findId l k = findId l' k := by
  have h' : (ids l').Nodup := by
    rw [ids] at h ⊢
    exact ((hp.map (fun p => p.id)).nodup_iff).mp h
  cases hf : findId l k with
  | none =>
    rw [findId, List.find?_eq_none] at hf
    symm
    rw [findId, List.find?_eq_none]
    intro x hx
    exact hf x (hp.symm.subset hx)
  | some p =>
    have := (findId_eq_some_iff h).mp hf
    symm
    exact (findId_eq_some_iff h').mpr ⟨hp.subset this.1, this.2⟩

theorem findId_mem_self {l : List PhotoData} (h : (ids l).Nodup)
    {p : PhotoData} (hp : p ∈ l) : findId l p.id = some p :=
  (findId_eq_some_iff h).mpr ⟨hp, rfl⟩

theorem lastWithId_eq_findId {l : List PhotoData} (h : (ids l).Nodup)
    (k : String) : lastWithId l k = findId l k := by
  induction l with
  | nil => rfl
  | cons q qs ih =>
    rw [ids, List.map_cons, List.nodup_cons] at h
    obtain ⟨hq, hqs⟩ := h
    by_cases hqk : q.id = k
    · subst hqk
      rw [lastWithId_cons_self]
      have hfilter : qs.filter (fun r => r.id = q.id) = [] := by
        rw [List.filter_eq_nil_iff]
        intro r hr
        simp only [decide_eq_true_eq]
        intro hc
        exact hq (List.mem_map.mpr ⟨r, hr, hc⟩)
      have hlast : lastD q qs = q := by
        unfold lastD
        rw [hfilter]
        rfl
      rw [hlast, findId, List.find?_cons]
      simp
    · rw [lastWithId_cons_ne q qs hqk, findId, List.find?_cons]
      have : (decide (q.id = k)) = false := by simp [hqk]
      rw [this]
      exact ih hqs

end Snap

namespace Snap

theorem lastD_append (p : PhotoData) (a b : List PhotoData) :
    lastD p (a ++ b) = lastD (lastD p a) b := by
  have hid := lastD_id p a
  unfold lastD at hid ⊢
  rw [hid, List.filter_append, List.getLast?_append]
  cases h : (b.filter (fun q => q.id = p.id)).getLast? with
  | none => simp [Option.or]
  | some q => simp [Option.or]

theorem dedupeSeen_append (a : List PhotoData) :
    ∀ (seen : List String) (b : List PhotoData),
      dedupeSeen seen (a ++ b) =
        (dedupeSeen seen a).map (fun q => lastD q b) ++
          dedupeSeen (seen ++ ids a) b := by
  induction a with
  | nil =>
    intro seen b
    simp [dedupeSeen, ids]
  | cons p a' ih =>
    intro seen b
    by_cases hp : p.id ∈ seen
    · rw [List.cons_append, dedupeSeen, if_pos hp, dedupeSeen, if_pos hp, ih]
      congr 1
      apply dedupeSeen_congr
      intro x
      have hsub : x = p.id → x ∈ seen := fun h => h ▸ hp
      simp only [List.mem_append, ids, List.map_cons, List.mem_cons]
      tauto
    · rw [List.cons_append, dedupeSeen, if_neg hp, dedupeSeen, if_neg hp,
        ih (p.id :: seen) b, List.map_cons, List.cons_append,
        lastD_append p a' b]
      congr 2
      apply dedupeSeen_congr
      intro x
      simp only [List.mem_append, List.mem_cons, ids, List.map_cons]
      tauto

end Snap

namespace Snap

theorem sortDesc_sorted (l : List PhotoData) : (sortDesc l).Pairwise tsGE :=
  List.sorted_insertionSort tsGE l

theorem sortDesc_perm (l : List PhotoData) : (sortDesc l).Perm l :=
  List.perm_insertionSort tsGE l

/-- Records of a given timestamp, in list order (used to state stability). -/
def filterTs (t : Int) (l : List PhotoData) : List PhotoData :=
  l.filter (fun p => p.timestamp = t)

theorem filterTs_nil (t : Int) : filterTs t [] = [] := rfl

theorem filterTs_cons (t : Int) (p : PhotoData) (l : List PhotoData) :
    filterTs t (p :: l) =
      if p.timestamp = t then p :: filterTs t l else filterTs t l := by
  unfold filterTs
  by_cases h : p.timestamp = t
  · rw [if_pos h, List.filter_cons_of_pos (by simp [h])]
  · rw [if_neg h, List.filter_cons_of_neg (by simp [h])]

theorem filterTs_orderedInsert (a : PhotoData) (l : List PhotoData) (t : Int) :
    filterTs t (List.orderedInsert tsGE a l) =
      if a.timestamp = t then a :: filterTs t l else filterTs t l := by
  induction l with
  | nil =>
    rw [List.orderedInsert, filterTs_cons]
  | cons b l ih =>
    rw [List.orderedInsert]
    by_cases hr : tsGE a b
    · rw [if_pos hr, filterTs_cons, filterTs_cons]
    · rw [if_neg hr, filterTs_cons, ih, filterTs_cons]
      have hlt : a.timestamp < b.timestamp := by
        have : ¬ b.timestamp ≤ a.timestamp := hr
        omega
      by_cases hb : b.timestamp = t
      · have ha : ¬ a.timestamp = t := by omega
        rw [if_pos hb, if_neg ha, if_neg ha, if_pos hb]
      · rw [if_neg hb]
        by_cases ha : a.timestamp = t
        · rw [if_pos ha, if_pos ha, if_neg hb]
        · rw [if_neg ha, if_neg ha, if_neg hb]

theorem filterTs_sortDesc (t : Int) (l : List PhotoData) :
    filterTs t (sortDesc l) = filterTs t l := by
  induction l with
  | nil => rfl
  | cons p ps ih =>
    have hstep : sortDesc (p :: ps) = List.orderedInsert tsGE p (sortDesc ps) := rfl
    rw [hstep, filterTs_orderedInsert, ih, filterTs_cons]

theorem ts_le_head_of_sorted {b : PhotoData} {bs : List PhotoData}
    (h : (b :: bs).Pairwise tsGE) {x : PhotoData} (hx : x ∈ b :: bs) :
    x.timestamp ≤ b.timestamp := by
  rcases List.mem_cons.mp hx with h1 | h1
  · rw [h1]
  · exact (List.pairwise_cons.mp h).1 x h1

theorem mem_ts_of_filterTs_ne_nil {t : Int} {l : List PhotoData}
    (h : filterTs t l ≠ []) : ∃ x ∈ l, x.timestamp = t := by
  cases hf : filterTs t l with
  | nil => exact absurd hf h
  | cons y ys =>
    have : y ∈ filterTs t l := by rw [hf]; exact List.mem_cons_self _ _
    unfold filterTs at this
    have := List.mem_filter.mp this
    exact ⟨y, this.1, by simpa using this.2⟩

theorem sorted_eq_of_filterTs :
    ∀ {l₁ l₂ : List PhotoData}, l₁.Pairwise tsGE → l₂.Pairwise tsGE →
      (∀ t, filterTs t l₁ = filterTs t l₂) → l₁ = l₂ := by
  intro l₁
  induction l₁ with
  | nil =>
    intro l₂ _ _ hf
    cases l₂ with
    | nil => rfl
    | cons b bs =>
      have hb := hf b.timestamp
      rw [filterTs_nil, filterTs_cons, if_pos rfl] at hb
      exact absurd hb.symm (List.cons_ne_nil _ _)
  | cons a as ih =>
    intro l₂ h₁ h₂ hf
    cases l₂ with
    | nil =>
      have ha := hf a.timestamp
      rw [filterTs_nil, filterTs_cons, if_pos rfl] at ha
      exact absurd ha (List.cons_ne_nil _ _)
    | cons b bs =>
      have hab : a.timestamp = b.timestamp := by
        have hne₁ : filterTs a.timestamp (b :: bs) ≠ [] := by
          rw [← hf a.timestamp, filterTs_cons, if_pos rfl]
          exact List.cons_ne_nil _ _
        have hne₂ : filterTs b.timestamp (a :: as) ≠ [] := by
          rw [hf b.timestamp, filterTs_cons, if_pos rfl]
          exact List.cons_ne_nil _ _
        obtain ⟨x, hx, hxt⟩ := mem_ts_of_filterTs_ne_nil hne₁
        obtain ⟨y, hy, hyt⟩ := mem_ts_of_filterTs_ne_nil hne₂
        have h1 : a.timestamp ≤ b.timestamp := hxt ▸ ts_le_head_of_sorted h₂ hx
        have h2 : b.timestamp ≤ a.timestamp := hyt ▸ ts_le_head_of_sorted h₁ hy
        omega
      have hcons := hf a.timestamp
      rw [filterTs_cons, if_pos rfl, filterTs_cons, if_pos hab.symm] at hcons
      have hhead : a = b := by
        exact (List.cons.injEq _ _ _ _ ▸ hcons).1
      have htail : ∀ t, filterTs t as = filterTs t bs := by
        intro t
        by_cases ht : t = a.timestamp
        · subst ht
          exact (List.cons.injEq _ _ _ _ ▸ hcons).2
        · have := hf t
          rw [filterTs_cons, if_neg (fun hc => ht hc.symm), filterTs_cons,
            if_neg (fun hc => ht (hab ▸ hc.symm))] at this
          exact this
      rw [hhead, ih (List.pairwise_cons.mp h₁).2 (List.pairwise_cons.mp h₂).2 htail]

end Snap

namespace Snap

theorem ids_append (a b : List PhotoData) : ids (a ++ b) = ids a ++ ids b := by
  unfold ids
  exact List.map_append _ _ _

theorem lastWithId_of_mem_dedupe {n : List PhotoData} {q : PhotoData}
    (hq : q ∈ dedupeSeen [] n) : lastWithId n q.id = some q := by
  have h := findId_mem_self (ids_dedupeSeen_nodup [] n) hq
  rw [findId_dedupeSeen (List.not_mem_nil _)] at h
  exact h

theorem merge_head_congr (n s s' : List PhotoData)
    (hs' : (ids s').Nodup)
    (hfind : ∀ k, findId s' k = lastWithId (n ++ s) k) :
    (dedupeSeen [] n).map (fun q => lastD q s') =
      (dedupeSeen [] n).map (fun q => lastD q s) := by
  apply List.map_congr_left
  intro q hq
  have h1 : lastD q s' = (lastWithId s' q.id).getD q := rfl
  have h2 : lastD q s = (lastWithId s q.id).getD q := rfl
  rw [h1, h2, lastWithId_eq_findId hs', hfind q.id, lastWithId_append]
  cases hls : lastWithId s q.id with
  | some v => simp [Option.or]
  | none =>
    simp only [Option.or]
    rw [lastWithId_of_mem_dedupe hq]
    rfl

theorem merge_tail_filterTs (n s s' : List PhotoData) (t : Int)
    (hs' : (ids s').Nodup)
    (hfts : ∀ u, filterTs u s' = filterTs u (dedupeSeen [] (n ++ s))) :
    filterTs t (dedupeSeen (ids n) s') = filterTs t (dedupeSeen (ids n) s) := by
  rw [dedupeSeen_of_nodup hs' (ids n)]
  have hcomm : filterTs t (s'.filter (fun p => p.id ∉ ids n)) =
      (filterTs t s').filter (fun p => p.id ∉ ids n) := by
    unfold filterTs
    rw [List.filter_filter, List.filter_filter]
    apply List.filter_congr
    intro x _
    exact Bool.and_comm _ _
  rw [hcomm, hfts t]
  have hdec : dedupeSeen [] (n ++ s) =
      (dedupeSeen [] n).map (fun q => lastD q s) ++ dedupeSeen (ids n) s := by
    rw [dedupeSeen_append n [] s]
    rfl
  rw [hdec]
  unfold filterTs
  rw [List.filter_append, List.filter_append]
  have hleft : ((((dedupeSeen [] n).map (fun q => lastD q s)).filter
      (fun p => p.timestamp = t)).filter (fun p => p.id ∉ ids n)) = [] := by
    rw [List.filter_eq_nil_iff]
    intro x hx
    have hx1 : x ∈ (dedupeSeen [] n).map (fun q => lastD q s) :=
      (List.mem_filter.mp hx).1
    obtain ⟨q, hq, hqx⟩ := List.mem_map.mp hx1
    have hid : x.id ∈ ids n := by
      rw [← hqx, lastD_id]
      have := mem_ids_dedupeSeen.mp (List.mem_map.mpr ⟨q, hq, rfl⟩)
      exact this.1
    simp [hid]
  have hright : (((dedupeSeen (ids n) s).filter (fun p => p.timestamp = t)).filter
      (fun p => p.id ∉ ids n)) =
      (dedupeSeen (ids n) s).filter (fun p => p.timestamp = t) := by
    rw [List.filter_eq_self]
    intro x hx
    have hx1 : x ∈ dedupeSeen (ids n) s := (List.mem_filter.mp hx).1
    have := id_not_seen_of_mem_dedupeSeen hx1
    simp [this]
  rw [hleft, hright, List.nil_append]

theorem mergedList_idem (s n : List PhotoData) :
    mergedList (mergedList s n) n = mergedList s n := by
  have hd₁ : mergedList s n = sortDesc (dedupeSeen [] (n ++ s)) := by
    rw [mergedList, jsMapDedupe_eq]
  set d₁ := dedupeSeen [] (n ++ s) with hd₁def
  have hnodup₁ : (ids d₁).Nodup := ids_dedupeSeen_nodup [] (n ++ s)
  set s' := sortDesc d₁ with hsdef
  have hperm : s'.Perm d₁ := sortDesc_perm d₁
  have hnodup' : (ids s').Nodup := by
    unfold ids at hnodup₁ ⊢
    exact ((hperm.map (fun p => p.id)).nodup_iff).mpr hnodup₁
  have hfind : ∀ k, findId s' k = lastWithId (n ++ s) k := by
    intro k
    rw [findId_perm hperm hnodup' k, findId_dedupeSeen (List.not_mem_nil _)]
  have hfts : ∀ u, filterTs u s' = filterTs u d₁ := by
    intro u
    rw [hsdef, filterTs_sortDesc]
  rw [hd₁]
  have hgoal : mergedList s' n = s' := by
    rw [mergedList, jsMapDedupe_eq]
    have hdec₂ : dedupeSeen [] (n ++ s') =
        (dedupeSeen [] n).map (fun q => lastD q s') ++ dedupeSeen (ids n) s' := by
      rw [dedupeSeen_append n [] s']
      rfl
    have hdec₁ : d₁ =
        (dedupeSeen [] n).map (fun q => lastD q s) ++ dedupeSeen (ids n) s := by
      rw [hd₁def, dedupeSeen_append n [] s]
      rfl
    have hfilters : ∀ t, filterTs t (dedupeSeen [] (n ++ s')) = filterTs t s' := by
      intro t
      rw [hdec₂]
      unfold filterTs
      rw [List.filter_append]
      have h1 := merge_head_congr n s s' hnodup' hfind
      rw [h1]
      have h2 := merge_tail_filterTs n s s' t hnodup' hfts
      unfold filterTs at h2
      rw [h2]
      have h3 := hfts t
      unfold filterTs at h3
      rw [h3, hdec₁, List.filter_append]
    apply sorted_eq_of_filterTs (sortDesc_sorted _) (hsdef ▸ sortDesc_sorted d₁)
    intro t
    rw [filterTs_sortDesc, hfilters t]
  exact hgoal

end Snap

namespace Snap

theorem upsert_length_le {store : List PhotoData} (p : PhotoData)
    (h : store.length ≤ 50) : (upsert store p).length ≤ 50 := by
  unfold upsert
  split
  · exact h
  · rw [List.length_take]
    exact min_le_left _ _

theorem applyUpserts_length_le (photos : List PhotoData) :
    ∀ store : List PhotoData, store.length ≤ 50 →
      (applyUpserts store photos).length ≤ 50 := by
  induction photos with
  | nil => intro store h; exact h
  | cons p ps ih =>
    intro store h
    exact ih (upsert store p) (upsert_length_le p h)

theorem upsert_of_mem {store : List PhotoData} {p : PhotoData}
    (h : p.id ∈ ids store) : upsert store p = store := by
  unfold upsert
  rw [if_pos]
  obtain ⟨q, hq, hqid⟩ := List.mem_map.mp h
  exact List.any_eq_true.mpr ⟨q, hq, by simpa using hqid⟩

theorem saveLocalBackup_of_canStore (store : List PhotoData) (p : PhotoData) :
    saveLocalBackup (fun _ => true) store p = .ok (upsert store p) := by
  unfold saveLocalBackup saveBody upsert
  by_cases h : (store.any (fun q => q.id = p.id)) = true
  · simp [h]
  · simp [h]

theorem applyUpserts_reverse_take :
    ∀ {ps : List PhotoData}, (ids ps).Nodup →
      applyUpserts [] ps = ps.reverse.take 50 := by
  intro ps
  induction ps using List.reverseRecOn with
  | nil => intro _; rfl
  | append_singleton l p ih =>
    intro h
    rw [ids_append] at h
    have hl : (ids l).Nodup := h.of_append_left
    have hp : p.id ∉ ids l := by
      intro hc
      have hdisj := List.disjoint_of_nodup_append h
      exact hdisj hc (by simp [ids])
    rw [applyUpserts, List.foldl_append, List.foldl_cons, List.foldl_nil]
    have hprev : List.foldl upsert [] l = l.reverse.take 50 := ih hl
    rw [hprev]
    have hnotin : ¬ (((l.reverse.take 50).any (fun q => q.id = p.id)) = true) := by
      intro hc
      obtain ⟨q, hq, hqid⟩ := List.any_eq_true.mp hc
      have hq1 : q ∈ l := List.mem_reverse.mp (List.take_subset _ _ hq)
      exact hp (List.mem_map.mpr ⟨q, hq1, by simpa using hqid⟩)
    rw [upsert, if_neg hnotin, List.reverse_append, List.reverse_singleton,
      List.singleton_append, List.take_succ_cons, List.take_take]
    norm_num

end Snap

namespace Snap

theorem merge_core (a b : List PhotoData) (ha : (ids a).Nodup)
    (hb : (ids b).Nodup) :
    (ids (sortDesc (jsMapDedupe (a ++ b)))).Nodup ∧
    (∀ k, k ∈ ids (sortDesc (jsMapDedupe (a ++ b))) ↔
      (k ∈ ids a ∨ k ∈ ids b)) ∧
    (∀ k, k ∈ ids b →
      findId (sortDesc (jsMapDedupe (a ++ b))) k = findId b k) ∧
    (∀ k, k ∉ ids b →
      findId (sortDesc (jsMapDedupe (a ++ b))) k = findId a k) := by
  rw [jsMapDedupe_eq]
  set d := dedupeSeen [] (a ++ b) with hd
  have hnodup : (ids d).Nodup := ids_dedupeSeen_nodup [] (a ++ b)
  have hperm : (sortDesc d).Perm d := sortDesc_perm d
  have hnodup' : (ids (sortDesc d)).Nodup := by
    unfold ids at hnodup ⊢
    exact ((hperm.map (fun p => p.id)).nodup_iff).mpr hnodup
  have hmem : ∀ k, k ∈ ids (sortDesc d) ↔ (k ∈ ids a ∨ k ∈ ids b) := by
    intro k
    have h1 : k ∈ ids (sortDesc d) ↔ k ∈ ids d := by
      unfold ids
      exact (hperm.map (fun p => p.id)).mem_iff
    rw [h1, hd]
    rw [show (ids (dedupeSeen [] (a ++ b)) = ids (dedupeSeen [] (a ++ b))) from rfl]
    constructor
    · intro h
      have := (mem_ids_dedupeSeen.mp h).1
      rw [ids_append, List.mem_append] at this
      exact this
    · intro h
      apply mem_ids_dedupeSeen.mpr
      refine ⟨?_, List.not_mem_nil _⟩
      rw [ids_append, List.mem_append]
      exact h
  have hfind : ∀ k, findId (sortDesc d) k =
      (lastWithId b k).or (lastWithId a k) := by
    intro k
    rw [findId_perm hperm hnodup' k, hd,
      findId_dedupeSeen (List.not_mem_nil _), lastWithId_append]
  refine ⟨hnodup', hmem, ?_, ?_⟩
  · intro k hk
    rw [hfind k, lastWithId_eq_findId hb k]
    obtain ⟨q, hq, hqid⟩ := List.mem_map.mp hk
    have : findId b k = some q := hqid ▸ findId_mem_self hb hq
    rw [this]
    rfl
  · intro k hk
    have hnone : lastWithId b k = none := by
      unfold lastWithId
      have : b.filter (fun p => p.id = k) = [] := by
        rw [List.filter_eq_nil_iff]
        intro x hx
        simp only [decide_eq_true_eq]
        intro hc
        exact hk (List.mem_map.mpr ⟨x, hx, hc⟩)
      rw [this]
      rfl
    rw [hfind k, hnone, lastWithId_eq_findId ha k]
    rfl

end Snap

namespace Snap

/-- C1 (counterexample): the claim says that for an id present in both
batches the merged result equals the remote-batch record.  In `update`
(supabase.ts lines 326-335) the incoming batch is spread first, so the JS
`Map` keeps the value of the later, previously published local entry: with
local batch `[mkPc 1 5 "local"]` and remote batch `[mkPc 1 9 "remote"]` the
merged record for id "1" is the local record, not the remote one. -/
theorem C1_counterexample :
    ¬ (findId (mergedList [mkPc 1 5 "local"] [mkPc 1 9 "remote"]) "1" =
       findId [mkPc 1 9 "remote"] "1") := by
  decide

/-- C1 (amended): both merges keep exactly one record per id, and the merged
id-set is the union of the two batches.  For an id present in both batches,
`mergePhotos` (revision 3) keeps the remote (cloud) record, while the
subscription merge `update` (revision 1) keeps the previously published
local record and ignores the incoming remote one. -/
theorem C1_dedup_merge (remote loc : List PhotoData)
    (hr : (ids remote).Nodup) (hl : (ids loc).Nodup) :
    ((ids (mergePhotos remote loc)).Nodup ∧
     (∀ k, k ∈ ids (mergePhotos remote loc) ↔
       (k ∈ ids remote ∨ k ∈ ids loc)) ∧
     (∀ k, k ∈ ids remote →
       findId (mergePhotos remote loc) k = findId remote k) ∧
     (∀ k, k ∉ ids remote →
       findId (mergePhotos remote loc) k = findId loc k)) ∧
    ((ids (mergedList loc remote)).Nodup ∧
     (∀ k, k ∈ ids (mergedList loc remote) ↔
       (k ∈ ids remote ∨ k ∈ ids loc)) ∧
     (∀ k, k ∈ ids loc →
       findId (mergedList loc remote) k = findId loc k) ∧
     (∀ k, k ∉ ids loc →
       findId (mergedList loc remote) k = findId remote k)) := by
  constructor
  · have h := merge_core loc remote hl hr
    exact ⟨h.1, fun k => (h.2.1 k).trans or_comm, h.2.2.1, h.2.2.2⟩
  · have h := merge_core remote loc hr hl
    exact ⟨h.1, h.2.1, h.2.2.1, h.2.2.2⟩

/-- C1 (witness): concrete two-singleton batches with distinct ids. -/
theorem C1_dedup_merge_witness :
    (ids (mergePhotos [mkPc 1 9 "remote"] [mkPc 2 5 "local"])).Nodup ∧
    findId (mergePhotos [mkPc 1 9 "remote"] [mkPc 2 5 "local"]) "1" =
      findId [mkPc 1 9 "remote"] "1" := by
  have h := C1_dedup_merge [mkPc 1 9 "remote"] [mkPc 2 5 "local"]
    (by decide) (by decide)
  exact ⟨h.1.1, h.1.2.2.1 "1" (by decide)⟩

/-- C2 (counterexample): the claim says the optimistic publish happens
before any awaited network call resolves.  `handleTakePhoto` awaits
`generatePhotoCaption` first (App.tsx line 51) and only then publishes
(line 72): in the capture trace at a concrete input, the prefix before the
first awaited network call contains no publish of the new record. -/
theorem C2_counterexample :
    ¬ ((((handleTakePhotoTrace [] demoMeta "img" 5).takeWhile
          (fun e => !e.isAwaitNet)).any
        (fun e => e = .publishGallery
          [optimisticPhoto demoMeta "img" 5])) = true) := by
  decide

/-- C2 (amended): in the `handleTakePhoto` trace the optimistic publish,
which carries the new record at the head of the previous gallery, happens
before the awaited blob-upload/row-insert call but after the awaited
caption-generation call resolves. -/
theorem C2_optimistic_visibility (prev : List PhotoData) (m : PhotoMeta)
    (img : String) (now : Int) :
    ((handleTakePhotoTrace prev m img now).findIdx
        CaptureEvent.isPublishEvt <
      (handleTakePhotoTrace prev m img now).findIdx
        (fun e => e = .awaitUploadAndSave)) ∧
    ((handleTakePhotoTrace prev m img now).get?
        ((handleTakePhotoTrace prev m img now).findIdx
          CaptureEvent.isPublishEvt) =
      some (.publishGallery (optimisticPhoto m img now :: prev))) ∧
    ((handleTakePhotoTrace prev m img now).findIdx
        (fun e => e = .awaitCaption) <
      (handleTakePhotoTrace prev m img now).findIdx
        CaptureEvent.isPublishEvt) := by
  refine ⟨?_, ?_, ?_⟩ <;>
    simp [handleTakePhotoTrace, List.findIdx, List.findIdx.go,
      CaptureEvent.isPublishEvt]

/-- C3 (counterexample): the claim says the minimal retry insert carries
exactly the id, the image location and the caption.  In revision 2
(supabase.ts lines 607-610) the compatibility retry row has only `id` and
`image_url`: at a concrete COLUMN_NOT_FOUND environment the retried row
(the last attempted insert) has no `caption` column, and the retry did
happen (two inserts were attempted). -/
theorem C3_counterexample :
    (uploadAndSavePhotoB demoMeta "img" cexEnv).1.length = 2 ∧
    ¬ ("caption" ∈ (((uploadAndSavePhotoB demoMeta "img"
        cexEnv).1.getLast?.getD []).map fieldName)) := by
  constructor
  · decide
  · decide

/-- C3 (amended): when the full-metadata insert returns a DB error with
code 42703, revision 1 retries with exactly `{id, image_url, caption}` and
revision 2 retries with exactly `{id, image_url}`; in both revisions the
call returns normally (the base64 fallback or the final image URL) rather
than raising. -/
theorem C3_schema_retry (m : PhotoMeta) (base64Image : String)
    (env : InsertEnv) (e : DBErr) (hfirst : env.firstInsert = .ret (some e))
    (hcode : e.code = "42703") :
    ((uploadAndSavePhotoA m base64Image env).1 =
      [fullRowA m (finalImageUrl base64Image env),
       retryRowA m (finalImageUrl base64Image env)]) ∧
    ((retryRowA m (finalImageUrl base64Image env)).map fieldName =
      ["id", "image_url", "caption"]) ∧
    ((uploadAndSavePhotoB m base64Image env).1 =
      [fullRowB m (finalImageUrl base64Image env),
       retryRowB m (finalImageUrl base64Image env)]) ∧
    ((retryRowB m (finalImageUrl base64Image env)).map fieldName =
      ["id", "image_url"]) ∧
    ((uploadAndSavePhotoA m base64Image env).2 = base64Image ∨
     (uploadAndSavePhotoA m base64Image env).2 =
       finalImageUrl base64Image env) := by
  have hcol : isColumnNotFound e = true := by
    unfold isColumnNotFound
    simp [hcode]
  refine ⟨?_, by simp [retryRowA, fieldName], ?_,
    by simp [retryRowB, fieldName], ?_⟩
  · unfold uploadAndSavePhotoA insertStageA
    rw [hfirst]
    cases env.retryInsert <;> simp [hcol]
  · unfold uploadAndSavePhotoB insertStageB
    rw [hfirst]
    cases env.retryInsert <;> simp [hcol]
  · unfold uploadAndSavePhotoA insertStageA
    rw [hfirst]
    cases env.retryInsert <;> simp [hcol]

/-- C3 (witness): the concrete COLUMN_NOT_FOUND environment. -/
theorem C3_schema_retry_witness :
    (uploadAndSavePhotoA demoMeta "img" cexEnv).1 =
      [fullRowA demoMeta (finalImageUrl "img" cexEnv),
       retryRowA demoMeta (finalImageUrl "img" cexEnv)] ∧
    (retryRowA demoMeta (finalImageUrl "img" cexEnv)).map fieldName =
      ["id", "image_url", "caption"] := by
  have h := C3_schema_retry demoMeta "img" cexEnv
    { code := "42703", message := "boom" } rfl rfl
  exact ⟨h.1, h.2.1⟩

end Snap

namespace Snap

set_option maxRecDepth 100000 in
/-- C4 (counterexample): the claim says that after more than 50 upserts the
retained records are the most-recent 50 by timestamp.  Upserting the 51
records of `photos51` in order (the first carrying the greatest timestamp)
evicts the record with id "0" even though it has the greatest timestamp, so
the retained id-set is not that of the top 50 by timestamp. -/
theorem C4_counterexample :
    ¬ (∀ k, k ∈ ids (applyUpserts [] photos51) ↔
        k ∈ ids (specTopByTimestamp photos51 50)) := by
  intro h
  exact absurd ((h "0").mpr (by decide)) (by decide)

/-- C4 (amended): after any sequence of upserts starting from an empty
Local Mirror the store holds at most 50 records; when the upserted ids are
distinct the retained records are the 50 most recently upserted ones (the
reversed upsert order, truncated to 50) — recency of insertion, not of
timestamp; and an upsert whose id is already present leaves the store
unchanged. -/
theorem C4_capacity (ps : List PhotoData) :
    (applyUpserts [] ps).length ≤ 50 ∧
    ((ids ps).Nodup → applyUpserts [] ps = ps.reverse.take 50) ∧
    (∀ (store : List PhotoData) (p : PhotoData),
      p.id ∈ ids store → upsert store p = store) := by
  refine ⟨applyUpserts_length_le ps [] (by simp), ?_, ?_⟩
  · intro h
    exact applyUpserts_reverse_take h
  · intro store p h
    exact upsert_of_mem h

set_option maxRecDepth 100000 in
/-- C4 (witness): the 51-record sequence and a duplicate-id upsert. -/
theorem C4_capacity_witness :
    (applyUpserts [] photos51).length ≤ 50 ∧
    applyUpserts [] photos51 = photos51.reverse.take 50 ∧
    upsert [mkP 1 5] (mkPc 1 7 "x") = [mkP 1 5] := by
  have h := C4_capacity photos51
  exact ⟨h.1, h.2.1 (by decide), (C4_capacity []).2.2 [mkP 1 5] (mkPc 1 7 "x")
    (by decide)⟩

/-- C5 (confirmed): every sequence produced by the sync-engine merges —
`update`'s merged list (revision 1) and `mergePhotos` (revision 3) — is
sorted by timestamp descending: each adjacent pair satisfies
`timestamp[i+1] ≤ timestamp[i]` (the relation `tsGE`). -/
theorem C5_published_sorted (cur inc cloud loc : List PhotoData) :
    List.Chain' tsGE (mergedList cur inc) ∧
    List.Chain' tsGE (mergePhotos cloud loc) :=
  ⟨(sortDesc_sorted _).chain', (sortDesc_sorted _).chain'⟩

/-- C6 (counterexample): the claim says the merge publishes only when the
sequence changed and that a second identical merge publishes nothing.  The
`update` of the revision embedded in firebase.ts (lines 291-300) has no
guard: applying it twice with the same input publishes both times, the
second time with an unchanged sequence. -/
theorem C6_counterexample :
    (fbUpdateStep (fbUpdateStep [] [mkP 1 5]).1 [mkP 1 5]).2 = true ∧
    (fbUpdateStep (fbUpdateStep [] [mkP 1 5]).1 [mkP 1 5]).1 =
      (fbUpdateStep [] [mkP 1 5]).1 := by
  exact ⟨rfl, by decide⟩

theorem updateStep_eq (cur inc : List PhotoData) :
    updateStep cur inc =
      if mergedList cur inc = cur then (cur, false)
      else (mergedList cur inc, true) := by
  simp only [updateStep]
  by_cases h : mergedList cur inc = cur
  · rw [if_pos h, if_neg]
    intro hc
    rcases hc with hc | hc
    · exact hc (by rw [h])
    · exact hc h
  · rw [if_neg h, if_pos (Or.inr h)]

/-- C6 (amended): the supabase revision-1 `update` publishes only if the
merged sequence differs from the previously published one, and applying it
twice with identical inputs publishes at most once (the second application
publishes nothing); the firebase-file revision's `update` instead publishes
unconditionally on every call. -/
theorem C6_publish_guard :
    (∀ cur inc : List PhotoData, (updateStep cur inc).2 = true →
      (updateStep cur inc).1 ≠ cur) ∧
    (∀ cur inc : List PhotoData,
      (updateStep (updateStep cur inc).1 inc).2 = false) ∧
    (∀ cur inc : List PhotoData, (fbUpdateStep cur inc).2 = true) := by
  refine ⟨?_, ?_, fun _ _ => rfl⟩
  · intro cur inc h
    rw [updateStep_eq] at h ⊢
    by_cases hg : mergedList cur inc = cur
    · rw [if_pos hg] at h
      simp at h
    · rw [if_neg hg]
      simpa using hg
  · intro cur inc
    rw [updateStep_eq cur inc]
    by_cases hg : mergedList cur inc = cur
    · rw [if_pos hg, updateStep_eq, if_pos hg]
    · rw [if_neg hg, updateStep_eq,
        if_pos (mergedList_idem cur inc)]

/-- C6 (witness): a concrete publishing merge followed by a silent one. -/
theorem C6_publish_guard_witness :
    (updateStep [] [mkP 1 5]).1 ≠ [] ∧
    (updateStep (updateStep [] [mkP 1 5]).1 [mkP 1 5]).2 = false := by
  exact ⟨C6_publish_guard.1 [] [mkP 1 5] (by decide),
    C6_publish_guard.2.1 [] [mkP 1 5]⟩

/-- C7 (confirmed): `getLocalPhotos` returns the empty sequence when the
persisted key is absent or the stored value fails to parse (the function is
total, so it never raises), and returns the deserialized collection when
the stored value is non-empty and parses. -/
theorem C7_local_mirror_read (parse : String → Except Unit (List PhotoData))
    (s : String) (l : List PhotoData) :
    (getLocalPhotos none parse = []) ∧
    (parse s = .error () → getLocalPhotos (some s) parse = []) ∧
    (s ≠ "" → parse s = .ok l → getLocalPhotos (some s) parse = l) := by
  refine ⟨rfl, ?_, ?_⟩
  · intro h
    simp only [getLocalPhotos]
    by_cases hs : s = ""
    · rw [if_pos hs]
    · rw [if_neg hs, h]
  · intro hs h
    simp only [getLocalPhotos]
    rw [if_neg hs, h]

/-- C7 (witness): absent key, corrupt value, and a well-formed value. -/
theorem C7_local_mirror_read_witness :
    getLocalPhotos none demoParse = [] ∧
    getLocalPhotos (some "junk") demoParse = [] ∧
    getLocalPhotos (some "p") demoParse = [mkP 1 1] := by
  refine ⟨(C7_local_mirror_read demoParse "junk" []).1,
    (C7_local_mirror_read demoParse "junk" []).2.1 (by rfl),
    (C7_local_mirror_read demoParse "p" [mkP 1 1]).2.2 (by decide)
      (by rfl)⟩

end Snap

namespace Snap

theorem filter_ne_iff_length {α : Type _} (p : α → Bool) (l : List α) :
    (l.filter p).length ≠ l.length ↔ l.filter p ≠ l := by
  constructor
  · intro h hc
    exact h (by rw [hc])
  · intro h hc
    exact h ((List.filter_sublist l).eq_of_length hc)

/-- C8 (counterexample): the claim says load removes exactly the records
whose timestamp is older than 24 hours.  With `now = 10^12`, a record whose
timestamp is `0` is about 31 years old, yet the falsiness check
`!p.timestamp` keeps it forever; and a record aged exactly 24 hours is
removed by the strict `<` although it is not older than 24 hours.  The
code's filter and the claim's filter disagree on both records. -/
theorem C8_counterexample :
    ¬ (loadAndCleanFilter 1000000000000
        [gPhoto "a" (some 0), gPhoto "b" (some 999913600000)] =
      List.filter (fun p => !(specExpired 1000000000000 p))
        [gPhoto "a" (some 0), gPhoto "b" (some 999913600000)]) := by
  decide

/-- C8 (amended): loading keeps exactly the records whose timestamp is
falsy (absent or zero) or strictly younger than 24 hours; the cleaned list
is what gets published, and it is written back exactly when some record was
removed; records lacking a timestamp are always kept. -/
theorem C8_retention (now : Int) (parsed : List GalleryPhoto) :
    (∀ p ∈ parsed, (p ∈ loadAndCleanFilter now parsed ↔
      (p.tsFalsy = true ∨ ∃ t, p.timestamp = some t ∧ now - t < 86400000))) ∧
    ((loadAndCleanGallery now parsed).2 = true ↔
      loadAndCleanFilter now parsed ≠ parsed) ∧
    ((loadAndCleanGallery now parsed).1 = loadAndCleanFilter now parsed) ∧
    (∀ p ∈ parsed, p.timestamp = none →
      p ∈ loadAndCleanFilter now parsed) := by
  refine ⟨?_, ?_, rfl, ?_⟩
  · intro p hp
    unfold loadAndCleanFilter
    rw [List.mem_filter]
    constructor
    · rintro ⟨-, hcond⟩
      cases ht : p.timestamp with
      | none =>
        exact Or.inl (by simp [GalleryPhoto.tsFalsy, ht])
      | some t =>
        rw [ht] at hcond
        simp only [Bool.or_eq_true, decide_eq_true_eq] at hcond
        rcases hcond with hcond | hcond
        · exact Or.inl (by simp [GalleryPhoto.tsFalsy, ht, hcond])
        · exact Or.inr ⟨t, rfl, hcond⟩
    · intro hcond
      refine ⟨hp, ?_⟩
      cases ht : p.timestamp with
      | none => simp
      | some t =>
        rcases hcond with hcond | ⟨u, hu, hlt⟩
        · unfold GalleryPhoto.tsFalsy at hcond
          rw [ht] at hcond
          simp only [decide_eq_true_eq] at hcond
          simp [hcond]
        · rw [ht] at hu
          cases hu
          simp [hlt]
  · have h2 : (loadAndCleanGallery now parsed).2 =
        decide ((loadAndCleanFilter now parsed).length ≠ parsed.length) := rfl
    rw [h2, decide_eq_true_iff]
    exact filter_ne_iff_length _ parsed
  · intro p hp ht
    unfold loadAndCleanFilter
    rw [List.mem_filter]
    exact ⟨hp, by simp [ht]⟩

/-- C8 (witness): a legacy record is kept, an expired one is removed, and
the cleaned list is persisted. -/
theorem C8_retention_witness :
    (gPhoto "a" none ∈ loadAndCleanFilter 1000000000000
      [gPhoto "a" none, gPhoto "b" (some 1)]) ∧
    (loadAndCleanGallery 1000000000000
      [gPhoto "a" none, gPhoto "b" (some 1)]).2 = true := by
  have h := C8_retention 1000000000000 [gPhoto "a" none, gPhoto "b" (some 1)]
  refine ⟨h.2.2.2 (gPhoto "a" none) (by decide) (by decide), ?_⟩
  rw [h.2.1]
  decide

/-- C9 (confirmed): for a remote DELETE event carrying id `x`, the handler
removes every record with id `x` both from the published in-memory list and
from the persisted Local Mirror. -/
theorem C9_remote_delete (cur store : List PhotoData) (x : String) :
    x ∉ ids (handleRemoteDelete cur store x).1 ∧
    x ∉ ids (handleRemoteDelete cur store x).2 := by
  constructor <;>
  · intro hc
    obtain ⟨q, hq, hqid⟩ := List.mem_map.mp hc
    have hmem := List.mem_filter.mp hq
    have : q.id ≠ x := by simpa using hmem.2
    exact this hqid

/-- C10 (confirmed): when persisting a new record throws (quota or
serialization failure) and the recovery write succeeds, `saveLocalBackup`
returns normally, the new record is not retained, and a mirror previously
holding more than 10 records is truncated to its first 10. -/
theorem C10_quota_failure (canStore : List PhotoData → Bool)
    (store : List PhotoData) (p : PhotoData)
    (hnew : p.id ∉ ids store)
    (hfail : canStore ((p :: store).take 50) = false)
    (hrec : canStore (store.take 10) = true) :
    saveLocalBackup canStore store p =
      .ok (if store.length > 10 then store.take 10 else store) ∧
    p.id ∉ ids (if store.length > 10 then store.take 10 else store) := by
  have hany : ¬ ((store.any (fun q => q.id = p.id)) = true) := by
    intro hc
    obtain ⟨q, hq, hqid⟩ := List.any_eq_true.mp hc
    exact hnew (List.mem_map.mpr ⟨q, hq, by simpa using hqid⟩)
  have hbody : saveBody canStore store p = .error () := by
    have hfail2 : canStore (p :: store.take 49) = false := hfail
    simp only [saveBody]
    rw [if_neg hany, if_neg (by simp [hfail2])]
  have hrecv : saveRecover canStore store =
      if store.length > 10 then store.take 10 else store := by
    unfold saveRecover
    by_cases hlen : store.length > 10
    · rw [if_pos hlen, if_pos hlen, if_pos (by simp [hrec])]
    · rw [if_neg hlen, if_neg hlen]
  constructor
  · unfold saveLocalBackup
    rw [hbody, hrecv]
  · intro hc
    apply hnew
    obtain ⟨q, hq, hqid⟩ := List.mem_map.mp hc
    have hqs : q ∈ store := by
      by_cases hlen : store.length > 10
      · rw [if_pos hlen] at hq
        exact List.take_subset _ _ hq
      · rw [if_neg hlen] at hq
        exact hq
    exact List.mem_map.mpr ⟨q, hqs, hqid⟩

/-- C10 (witness): a 12-record mirror with a nearly full quota. -/
theorem C10_quota_failure_witness :
    saveLocalBackup cexCanStore store12 (mkP 20 99) =
      .ok (if store12.length > 10 then store12.take 10 else store12) ∧
    (mkP 20 99).id ∉ ids (if store12.length > 10 then store12.take 10
      else store12) :=
  C10_quota_failure cexCanStore store12 (mkP 20 99) (by decide) (by decide)
    (by decide)

end Snap
